import Mathlib

/-!
Verification of the AlphaFactory backtest engines.

Shallow embedding of the portfolio backtest engine
(`src/backtest/portfolio_engine.py`), the enhanced backtest engine
(`src/backtest/enhanced_backtest_engine.py`) and the trailing-stop logic of
`src/strategies/strategy_base.py`.  Prices and cash are modelled as exact
rationals, share counts as integers (Python `int(...)` truncates toward
zero), timestamps as integer day numbers, and Python dictionaries keyed by
symbol as association lists with distinct keys.
-/

/-- Python `int(x)` conversion of a float: truncation toward zero. -/
def pyInt (q : ℚ) : ℤ := if 0 ≤ q then ⌊q⌋ else -⌊-q⌋

/-- Python truthiness of an optional float: `None` and `0.0` are falsy. -/
def optTruthy (o : Option ℚ) : Bool :=
  match o with
  | none => false
  | some x => x ≠ 0

namespace Portfolio

/-- Open position record (`Position` dataclass in `portfolio_engine.py`). -/
structure Position where
  symbol : String
  entryDate : ℤ
  entryPrice : ℚ
  shares : ℤ
  stopPrice : ℚ
  entryValue : ℚ
  currentValue : ℚ
  unrealizedPnl : ℚ
  deriving Repr, DecidableEq

/-- Closed-trade record (`ClosedTrade` dataclass in `portfolio_engine.py`). -/
structure ClosedTrade where
  symbol : String
  entryDate : ℤ
  exitDate : ℤ
  entryPrice : ℚ
  exitPrice : ℚ
  shares : ℤ
  pnl : ℚ
  pnlPct : ℚ
  exitReason : String
  holdDays : ℤ
  entryValue : ℚ
  exitValue : ℚ
  deriving Repr, DecidableEq

/-- State of `PortfolioBacktestEngine`: configuration plus mutable fields. -/
structure Engine where
  initialCapital : ℚ
  commissionPerTrade : ℚ
  commissionPct : ℚ
  slippagePct : ℚ
  maxPositions : ℕ
  maxPositionPct : ℚ
  reserveCashPct : ℚ
  cash : ℚ
  equity : ℚ
  positions : List (String × Position)
  closedTrades : List ClosedTrade
  equityCurve : List (ℤ × ℚ × ℚ)
  dailyReturns : List ℚ
  peakEquity : ℚ
  maxDrawdown : ℚ
  deriving Repr, DecidableEq

/-- Engine construction (`PortfolioBacktestEngine.__init__`). -/
def mkEngine (initialCapital commissionPerTrade commissionPct slippagePct : ℚ)
    (maxPositions : ℕ) (maxPositionPct reserveCashPct : ℚ) : Engine :=
  { initialCapital := initialCapital
    commissionPerTrade := commissionPerTrade
    commissionPct := commissionPct
    slippagePct := slippagePct
    maxPositions := maxPositions
    maxPositionPct := maxPositionPct
    reserveCashPct := reserveCashPct
    cash := initialCapital
    equity := initialCapital
    positions := []
    closedTrades := []
    equityCurve := []
    dailyReturns := []
    peakEquity := initialCapital
    maxDrawdown := 0 }

/-- Check for room in the ledger (`can_open_position`). -/
def can_open_position (e : Engine) : Bool := e.positions.length < e.maxPositions

/-- Capital available for new positions (`get_available_capital`). -/
def get_available_capital (e : Engine) : ℚ :=
  max 0 (e.cash - e.equity * e.reserveCashPct)

/-- Open a new position (`open_position`).  Returns the Python boolean
result together with the engine state after the call.  The capital-check
branch is modelled as an optional resized fill: `none` corresponds to the
early `return False` paths. -/
def open_position (e : Engine) (symbol : String) (entryDate : ℤ)
    (entryPrice : ℚ) (shares : ℤ) (stopPrice : ℚ) : Bool × Engine :=
  if (e.positions.lookup symbol).isSome then (false, e)
  else if ¬ can_open_position e then (false, e)
  else
    let actualEntryPrice := entryPrice * (1 + e.slippagePct)
    let positionValue := actualEntryPrice * (shares : ℚ)
    let commission := max e.commissionPerTrade (positionValue * e.commissionPct)
    let totalCost := positionValue + commission
    let fill : Option (ℤ × ℚ × ℚ) :=
      if totalCost > e.cash then
        let available := get_available_capital e
        if available < positionValue * (1 / 2) then none
        else
          let shares2 := pyInt (available / (actualEntryPrice * (1 + e.commissionPct)))
          if shares2 = 0 then none
          else
            let positionValue2 := actualEntryPrice * (shares2 : ℚ)
            let commission2 := max e.commissionPerTrade (positionValue2 * e.commissionPct)
            some (shares2, positionValue2, positionValue2 + commission2)
      else some (shares, positionValue, totalCost)
    match fill with
    | none => (false, e)
    | some (s, v, t) =>
        (true,
          { e with
            cash := e.cash - t
            positions := e.positions ++
              [(symbol,
                { symbol := symbol
                  entryDate := entryDate
                  entryPrice := actualEntryPrice
                  shares := s
                  stopPrice := stopPrice
                  entryValue := v
                  currentValue := 0
                  unrealizedPnl := 0 })] })

/-- Close an existing position (`close_position`). -/
def close_position (e : Engine) (symbol : String) (exitDate : ℤ)
    (exitPrice : ℚ) (exitReason : String) : Bool × Engine :=
  match e.positions.lookup symbol with
  | none => (false, e)
  | some p =>
      let actualExitPrice := exitPrice * (1 - e.slippagePct)
      let exitValue := actualExitPrice * (p.shares : ℚ)
      let commission := max e.commissionPerTrade (exitValue * e.commissionPct)
      let netProceeds := exitValue - commission
      let pnl := netProceeds - p.entryValue
      let trade : ClosedTrade :=
        { symbol := symbol
          entryDate := p.entryDate
          exitDate := exitDate
          entryPrice := p.entryPrice
          exitPrice := actualExitPrice
          shares := p.shares
          pnl := pnl
          pnlPct := pnl / p.entryValue
          exitReason := exitReason
          holdDays := exitDate - p.entryDate
          entryValue := p.entryValue
          exitValue := exitValue }
      (true,
        { e with
          cash := e.cash + netProceeds
          closedTrades := e.closedTrades ++ [trade]
          positions := e.positions.filter (fun sp => sp.1 ≠ symbol) })

/-- Mark a position to market (`Position.update`). -/
def updatePosition (p : Position) (currentPrice : ℚ) : Position :=
  { p with
    currentValue := currentPrice * (p.shares : ℚ)
    unrealizedPnl := currentPrice * (p.shares : ℚ) - p.entryValue }

/-- Per-bar equity update (`update_equity`): mark-to-market, peak and
drawdown tracking, equity-curve append and daily-return computation. -/
def update_equity (e : Engine) (currentDate : ℤ)
    (currentPrices : List (String × ℚ)) : Engine :=
  let positions := e.positions.map (fun sp =>
    match currentPrices.lookup sp.1 with
    | some pr => (sp.1, updatePosition sp.2 pr)
    | none => sp)
  let positionValue := (e.positions.map (fun sp =>
    match currentPrices.lookup sp.1 with
    | some pr => pr * (sp.2.shares : ℚ)
    | none => 0)).sum
  let equity := e.cash + positionValue
  let peak := if equity > e.peakEquity then equity else e.peakEquity
  let currentDrawdown := (peak - equity) / peak
  let maxDD := if currentDrawdown > e.maxDrawdown then currentDrawdown else e.maxDrawdown
  let curve := e.equityCurve ++ [(currentDate, equity, e.cash)]
  let returns :=
    match e.equityCurve.getLast? with
    | some prev => e.dailyReturns ++ [(equity - prev.2.1) / prev.2.1]
    | none => e.dailyReturns
  { e with
    positions := positions
    equity := equity
    peakEquity := peak
    maxDrawdown := maxDD
    equityCurve := curve
    dailyReturns := returns }

/-- One external call into the engine: open, close, or per-bar equity
update. -/
inductive Op where
  | openPos (symbol : String) (entryDate : ℤ) (entryPrice : ℚ)
      (shares : ℤ) (stopPrice : ℚ)
  | closePos (symbol : String) (exitDate : ℤ) (exitPrice : ℚ) (reason : String)
  | update (date : ℤ) (prices : List (String × ℚ))
  deriving Repr

/-- Apply one call to the engine state. -/
def stepOp (e : Engine) : Op → Engine
  | .openPos s d p n st => (open_position e s d p n st).2
  | .closePos s d p r => (close_position e s d p r).2
  | .update d prices => update_equity e d prices

/-- Run a sequence of calls from a given state. -/
def runOps (e : Engine) (ops : List Op) : Engine := ops.foldl stepOp e

/-- Mean of a list of reals (`np.mean`). -/
noncomputable def listMean (xs : List ℝ) : ℝ := xs.sum / xs.length

/-- Population standard deviation of a list of reals (`np.std`, `ddof=0`). -/
noncomputable def npStd (xs : List ℝ) : ℝ :=
  Real.sqrt ((xs.map (fun x => (x - listMean xs) ^ 2)).sum / xs.length)

/-- Cast a list of rationals (exactly modelled floats) to reals. -/
def castList (l : List ℚ) : List ℝ := l.map (fun q => (q : ℝ))

/-- Sharpe computation of `get_performance_metrics`:
`np.sqrt(252) * mean / std` when there is more than one daily return and
the standard deviation is positive, else `0`. -/
noncomputable def sharpeOf (dailyReturns : List ℚ) : ℝ :=
  if 1 < dailyReturns.length then
    let xs := castList dailyReturns
    if 0 < npStd xs then Real.sqrt 252 * listMean xs / npStd xs else 0
  else 0

/-- Sortino computation of `get_performance_metrics`: when negative daily
returns exist, `np.sqrt(252) * mean(all returns) / std(negative returns)`
(or `0` if that deviation is not positive); when none exist, the code
falls back to the Sharpe value; with at most one daily return it is `0`. -/
noncomputable def sortinoOf (dailyReturns : List ℚ) : ℝ :=
  if 1 < dailyReturns.length then
    let downside := dailyReturns.filter (fun r => r < 0)
    if downside.isEmpty then sharpeOf dailyReturns
    else
      let ds := castList downside
      if 0 < npStd ds then Real.sqrt 252 * listMean (castList dailyReturns) / npStd ds
      else 0
  else 0

/-- Ratio fields of the metrics record returned by
`get_performance_metrics` in the non-empty case. -/
structure Metrics where
  sharpe : ℝ
  sortino : ℝ
  winRate : ℚ
  profitFactor : ℚ
  deriving Inhabited

/-- Result of `get_performance_metrics`: either the early error record
`{'error': 'No closed trades'}` or a metrics record.  `crash` marks the
states on which the Python code would raise (empty equity curve with a
non-empty trade list). -/
inductive PerfReturn where
  | err (msg : String)
  | crash
  | res (m : Metrics)

/-- Win rate over the closed trades (`num_wins / num_trades`). -/
def winRateOf (trades : List ClosedTrade) : ℚ :=
  if trades.length = 0 then 0
  else ((trades.filter (fun t => 0 < t.pnl)).length : ℚ) / (trades.length : ℚ)

/-- Profit factor over the closed trades
(`total_wins / total_losses`, `0` when there are no losses). -/
def profitFactorOf (trades : List ClosedTrade) : ℚ :=
  let wins := trades.filter (fun t => 0 < t.pnl)
  let losses := trades.filter (fun t => t.pnl ≤ 0)
  let totalWins := if wins.length = 0 then 0 else (wins.map (fun t => t.pnl)).sum
  let totalLosses := if losses.length = 0 then 0 else |(losses.map (fun t => t.pnl)).sum|
  if 0 < totalLosses then totalWins / totalLosses else 0

/-- Performance metrics of `PortfolioBacktestEngine.get_performance_metrics`,
restricted to the ratio fields the specification talks about.  With no
closed trades the Python code returns `{'error': 'No closed trades'}`
before computing anything else. -/
noncomputable def get_performance_metrics (e : Engine) : PerfReturn :=
  if e.closedTrades.isEmpty then .err "No closed trades"
  else if e.equityCurve.isEmpty then .crash
  else .res
    { sharpe := sharpeOf e.dailyReturns
      sortino := sortinoOf e.dailyReturns
      winRate := winRateOf e.closedTrades
      profitFactor := profitFactorOf e.closedTrades }

end Portfolio

namespace Enhanced

/-- Trade record of the enhanced engine (`Trade` class in
`enhanced_backtest_engine.py`).  `direction` is `1` for long and `-1` for
short; exit fields are `None` until the trade is closed. -/
structure Trade where
  symbol : String
  entryDate : ℤ
  entryPrice : ℚ
  shares : ℤ
  direction : ℤ
  stopPrice : Option ℚ
  takeProfitPrice : Option ℚ
  exitDate : Option ℤ
  exitPrice : Option ℚ
  exitReason : Option String
  pnl : Option ℚ
  pnlPct : Option ℚ
  mae : ℚ
  mfe : ℚ
  deriving Repr, DecidableEq

/-- Create a trade with open entry fields (`Trade.__init__`). -/
def mkTrade (symbol : String) (entryDate : ℤ) (entryPrice : ℚ) (shares : ℤ)
    (direction : ℤ) (stopPrice takeProfitPrice : Option ℚ) : Trade :=
  { symbol := symbol
    entryDate := entryDate
    entryPrice := entryPrice
    shares := shares
    direction := direction
    stopPrice := stopPrice
    takeProfitPrice := takeProfitPrice
    exitDate := none
    exitPrice := none
    exitReason := none
    pnl := none
    pnlPct := none
    mae := 0
    mfe := 0 }

/-- Close a trade (`Trade.close`): record exit data and realised PnL. -/
def tradeClose (t : Trade) (exitDate : ℤ) (exitPrice : ℚ) (reason : String) : Trade :=
  { t with
    exitDate := some exitDate
    exitPrice := some exitPrice
    exitReason := some reason
    pnl := some (if t.direction = 1
      then (exitPrice - t.entryPrice) * (t.shares : ℚ)
      else (t.entryPrice - exitPrice) * (t.shares : ℚ))
    pnlPct := some (if t.direction = 1
      then (exitPrice - t.entryPrice) / t.entryPrice
      else (t.entryPrice - exitPrice) / t.entryPrice) }

/-- Update maximum adverse/favorable excursion (`Trade.update_mae_mfe`). -/
def updateMaeMfe (t : Trade) (currentPrice : ℚ) : Trade :=
  let excursion := if t.direction = 1
    then (currentPrice - t.entryPrice) / t.entryPrice
    else (t.entryPrice - currentPrice) / t.entryPrice
  { t with mfe := max t.mfe excursion, mae := min t.mae excursion }

/-- State of `EnhancedBacktestEngine`. -/
structure Engine where
  initialCapital : ℚ
  commissionPct : ℚ
  slippagePct : ℚ
  checkIntrabarStops : Bool
  equity : ℚ
  cash : ℚ
  positions : List (String × Trade)
  closedTrades : List Trade
  equityCurve : List (ℤ × ℚ)
  deriving Repr, DecidableEq

/-- Strategy interface as the engine consumes it: the engine calls
`calculate_position_size`, `calculate_stops` and `update_trailing_stop`
on the `AdvancedStrategy` object and reads `trailing_stop_pct`.  Direction
arguments are `1` (`SignalType.LONG`) or `-1` (`SignalType.SHORT`). -/
structure StratFns where
  trailingStopPct : Option ℚ
  calcPositionSize : String → ℚ → ℚ → Option ℚ → ℤ
  calcStops : String → ℚ → ℤ → Option ℚ → Option ℚ × Option ℚ
  updateTrailingStop : String → ℚ → ℤ → Option ℚ

/-- One OHLC bar together with its optional `atr_14` value. -/
structure Bar where
  date : ℤ
  openP : ℚ
  highP : ℚ
  lowP : ℚ
  closeP : ℚ
  atr : Option ℚ
  deriving Repr, DecidableEq

/-- Close an existing position (`_close_position`): direction-aware
slippage, commission, cash update (longs receive net proceeds, shorts
release collateral plus profit), move the trade to the closed list. -/
def closePosition (e : Engine) (symbol : String) (date : ℤ) (price : ℚ)
    (reason : String) : Engine :=
  match e.positions.lookup symbol with
  | none => e
  | some position =>
      let exitPrice := price * (1 - e.slippagePct * position.direction)
      let closed := tradeClose position date exitPrice reason
      let proceeds := exitPrice * (position.shares : ℚ)
      let commission := proceeds * e.commissionPct
      let netProceeds := proceeds - commission
      let cash :=
        if position.direction = 1 then e.cash + netProceeds
        else
          let originalValue := position.entryPrice * (position.shares : ℚ)
          let profit := (position.entryPrice - exitPrice) * (position.shares : ℚ)
          e.cash + originalValue + profit - commission
      { e with
        cash := cash
        closedTrades := e.closedTrades ++ [closed]
        positions := e.positions.filter (fun sp => sp.1 ≠ symbol) }

/-- Open a new position (`_open_position`): strategy sizing, slippage,
stops, cost check with a 95%-of-cash resize fallback. -/
def openPosition (e : Engine) (fns : StratFns) (symbol : String) (date : ℤ)
    (price : ℚ) (direction : ℤ) (atr : Option ℚ) : Engine :=
  let shares := fns.calcPositionSize symbol price e.equity atr
  if shares ≤ 0 then e
  else
    let entryPrice := price * (1 + e.slippagePct * direction)
    let stops := fns.calcStops symbol entryPrice direction atr
    let positionCost := entryPrice * (shares : ℚ)
    let commission := positionCost * e.commissionPct
    let totalCost := positionCost + commission
    let fill : Option (ℤ × ℚ) :=
      if totalCost > e.cash then
        let availableCash := e.cash * (95 / 100)
        let shares2 := pyInt (availableCash / (entryPrice * (1 + e.commissionPct)))
        if shares2 ≤ 0 then none
        else
          let positionCost2 := entryPrice * (shares2 : ℚ)
          some (shares2, positionCost2 + positionCost2 * e.commissionPct)
      else some (shares, totalCost)
    match fill with
    | none => e
    | some (s, t) =>
        { e with
          cash := e.cash - t
          positions := e.positions ++
            [(symbol, mkTrade symbol date entryPrice s direction stops.1 stops.2)] }

/-- Stop-check phase of `run_backtest` for one bar: MAE/MFE update,
intrabar stop-loss / take-profit detection (stop first, take-profit only
in the `elif`), then the trailing-stop update.  Returns the new state and
the `stop_hit` flag. -/
def checkStopsPhase (e : Engine) (fns : StratFns) (symbol : String) (bar : Bar) :
    Engine × Bool :=
  match e.positions.lookup symbol with
  | none => (e, false)
  | some position0 =>
      let position := updateMaeMfe position0 bar.closeP
      let e0 := { e with positions := e.positions.map (fun sp =>
        if sp.1 = symbol then (sp.1, position) else sp) }
      let step : Engine × Bool :=
        if e.checkIntrabarStops then
          if position.direction = 1 then
            match position.stopPrice with
            | some sp =>
                if sp ≠ 0 ∧ bar.lowP ≤ sp then
                  (closePosition e0 symbol bar.date sp "Stop Loss", true)
                else
                  match position.takeProfitPrice with
                  | some tp =>
                      if tp ≠ 0 ∧ tp ≤ bar.highP then
                        (closePosition e0 symbol bar.date tp "Take Profit", true)
                      else (e0, false)
                  | none => (e0, false)
            | none =>
                match position.takeProfitPrice with
                | some tp =>
                    if tp ≠ 0 ∧ tp ≤ bar.highP then
                      (closePosition e0 symbol bar.date tp "Take Profit", true)
                    else (e0, false)
                | none => (e0, false)
          else
            match position.stopPrice with
            | some sp =>
                if sp ≠ 0 ∧ sp ≤ bar.highP then
                  (closePosition e0 symbol bar.date sp "Stop Loss", true)
                else
                  match position.takeProfitPrice with
                  | some tp =>
                      if tp ≠ 0 ∧ bar.lowP ≤ tp then
                        (closePosition e0 symbol bar.date tp "Take Profit", true)
                      else (e0, false)
                  | none => (e0, false)
            | none =>
                match position.takeProfitPrice with
                | some tp =>
                    if tp ≠ 0 ∧ bar.lowP ≤ tp then
                      (closePosition e0 symbol bar.date tp "Take Profit", true)
                    else (e0, false)
                | none => (e0, false)
        else (e0, false)
      let e1 := step.1
      let e2 :=
        if (e1.positions.lookup symbol).isSome ∧ optTruthy fns.trailingStopPct then
          match e1.positions.lookup symbol with
          | some position2 =>
              let newStop := fns.updateTrailingStop symbol bar.closeP
                (if position2.direction = 1 then 1 else -1)
              if optTruthy newStop then
                { e1 with positions := e1.positions.map (fun sp =>
                  if sp.1 = symbol then (sp.1, { position2 with stopPrice := newStop }) else sp) }
              else e1
          | none => e1
        else e1
      (e2, step.2)

/-- Signal-processing phase of `run_backtest` for one bar: reversal close,
entry, and explicit exit signals.  Signals are encoded as in the source
series: `1` LONG, `-1` SHORT, `2` EXIT_LONG, `-2` EXIT_SHORT. -/
def processSignal (e : Engine) (fns : StratFns) (symbol : String) (bar : Bar)
    (signal : ℤ) : Engine :=
  if signal = 1 then
    let e1 :=
      match e.positions.lookup symbol with
      | some t => if t.direction = -1 then
          closePosition e symbol bar.date bar.closeP "Signal Reversal" else e
      | none => e
    if (e1.positions.lookup symbol).isNone then
      openPosition e1 fns symbol bar.date bar.closeP 1 bar.atr
    else e1
  else if signal = -1 then
    let e1 :=
      match e.positions.lookup symbol with
      | some t => if t.direction = 1 then
          closePosition e symbol bar.date bar.closeP "Signal Reversal" else e
      | none => e
    if (e1.positions.lookup symbol).isNone then
      openPosition e1 fns symbol bar.date bar.closeP (-1) bar.atr
    else e1
  else if signal = 2 then
    match e.positions.lookup symbol with
    | some t => if t.direction = 1 then
        closePosition e symbol bar.date bar.closeP "Exit Signal" else e
    | none => e
  else if signal = -2 then
    match e.positions.lookup symbol with
    | some t => if t.direction = -1 then
        closePosition e symbol bar.date bar.closeP "Exit Signal" else e
    | none => e
  else e

/-- Equity-curve update (`_update_equity`): cash plus mark-to-market value
of open positions (longs at price, shorts as collateral plus PnL). -/
def updateEquity (e : Engine) (date : ℤ) (price : ℚ) : Engine :=
  let positionValue := (e.positions.map (fun sp =>
    if sp.2.direction = 1 then price * (sp.2.shares : ℚ)
    else sp.2.entryPrice * (sp.2.shares : ℚ) +
      (sp.2.entryPrice - price) * (sp.2.shares : ℚ))).sum
  let equity := e.cash + positionValue
  { e with equity := equity, equityCurve := e.equityCurve ++ [(date, equity)] }

/-- One iteration of the `run_backtest` loop: stop checks first (a hit
zeroes the bar's signal), then signal processing, then the equity update. -/
def barStep (e : Engine) (fns : StratFns) (symbol : String) (bar : Bar)
    (signal : ℤ) : Engine :=
  let step := checkStopsPhase e fns symbol bar
  let signal2 := if step.2 then 0 else signal
  updateEquity (processSignal step.1 fns symbol bar signal2) bar.date bar.closeP

/-- Result shape of `_calculate_performance`: with no closed trades it
returns the error record `{'error': 'No trades executed', 'initial_capital':
..., 'final_equity': ...}`; otherwise a full metrics record (whose fields
no claim inspects, so they are not modelled further). -/
inductive PerfReturn where
  | err (msg : String) (initialCapital finalEquity : ℚ)
  | metricsRecord

/-- Performance branch of `_calculate_performance` relevant to the claims:
the no-trades early return. -/
def calculatePerformance (e : Engine) : PerfReturn :=
  if e.closedTrades.isEmpty then .err "No trades executed" e.initialCapital e.equity
  else .metricsRecord

end Enhanced

namespace Strategy

/-- Signal kinds of `strategy_base.SignalType`. -/
inductive SignalType where
  | long
  | short
  | neutral
  | exitLong
  | exitShort
  deriving Repr, DecidableEq

/-- Trailing-stop update of `AdvancedStrategy.update_trailing_stop`:
returns `None` when the strategy has no (truthy) trailing percentage or no
recorded stop for the symbol; for a long the stop moves to
`current_price * (1 - trailing_stop_pct)` only when that is higher than
the current stop, mirrored for a short; otherwise the current stop is
returned unchanged. -/
def update_trailing_stop (trailingStopPct : Option ℚ)
    (stopPrices : List (String × ℚ)) (symbol : String) (currentPrice : ℚ)
    (signal : SignalType) : Option ℚ :=
  if ¬ optTruthy trailingStopPct ∨ (stopPrices.lookup symbol).isNone then none
  else
    match trailingStopPct, stopPrices.lookup symbol with
    | some pct, some currentStop =>
        match signal with
        | .long =>
            let newStop := currentPrice * (1 - pct)
            if newStop > currentStop then some newStop else some currentStop
        | .short =>
            let newStop := currentPrice * (1 + pct)
            if newStop < currentStop then some newStop else some currentStop
        | _ => some currentStop
    | _, _ => none

/-- Stored stop price after one bar when the engine feeds the update back
into the position (`run_backtest`: `position.stop_price = new_stop` when
the returned value is truthy, unchanged otherwise). -/
def trailingStep (trailingStopPct : ℚ) (signal : SignalType) (symbol : String)
    (stop closePrice : ℚ) : ℚ :=
  match update_trailing_stop (some trailingStopPct) [(symbol, stop)] symbol
      closePrice signal with
  | some s => if s ≠ 0 then s else stop
  | none => stop

/-- Stored stop prices along a sequence of bar closes, starting from the
initial stop. -/
def trailingStops (trailingStopPct : ℚ) (signal : SignalType) (symbol : String)
    (initialStop : ℚ) (closes : List ℚ) : List ℚ :=
  closes.scanl (trailingStep trailingStopPct signal symbol) initialStop

end Strategy

/-- Keys of an association list (the symbols of a position ledger). -/
def ledgerKeys {β : Type} (l : List (String × β)) : List String := l.map Prod.fst

/-- Distinctness of ledger keys: the Python ledgers are dictionaries keyed
by symbol, so a state satisfying this holds at most one position per
symbol. -/
def keysNodup {β : Type} (l : List (String × β)) : Prop := (ledgerKeys l).Nodup

/-- One equity sample folded into (peak, max drawdown) as the spec words
it: the peak becomes the running maximum of equity and the drawdown the
running maximum of `(peak_equity - equity) / peak_equity`. -/
def pdStep (pd : ℚ × ℚ) (eq : ℚ) : ℚ × ℚ :=
  let pk := max pd.1 eq
  (pk, max pd.2 ((pk - eq) / pk))

/-- Peak equity and maximum drawdown as the spec words them, folded over
the equity samples of a run starting from the initial capital. -/
def specPeakDrawdown (initialCapital : ℚ) (equities : List ℚ) : ℚ × ℚ :=
  equities.foldl pdStep (initialCapital, 0)

/-- Equity samples of a portfolio equity curve (its second components). -/
def curveEquities (curve : List (ℤ × ℚ × ℚ)) : List ℚ :=
  curve.map (fun x => x.2.1)

/-- Concrete portfolio engine used in witnesses: capital 150, fixed
commission 1, commission 0.1%, no slippage, up to 10 positions, 10%
position cap, no reserve. -/
def engineC1 : Portfolio.Engine := Portfolio.mkEngine 150 1 (1 / 1000) 0 10 (1 / 10) 0

/-- Concrete run of the portfolio engine whose equity goes negative: the
resize path leaves cash at -0.5, and a later mark-to-market at price 0.01
drives equity below zero. -/
def engineC7 : Portfolio.Engine :=
  Portfolio.runOps (Portfolio.mkEngine (121 / 2) 1 (1 / 1000) 0 10 1 0)
    [.openPos "A" 0 10 12 9, .update 1 [("A", 1 / 100)]]

/-- Concrete frictionless run with one profitable closed trade and daily
returns `[0, 1/10]` (no negative days). -/
def engineC9 : Portfolio.Engine :=
  Portfolio.runOps (Portfolio.mkEngine 1000 0 0 0 10 1 0)
    [.openPos "A" 0 10 50 9, .update 1 [("A", 10)], .update 2 [("A", 10)],
     .update 3 [("A", 12)], .closePos "A" 4 12 "Exit Signal"]

/-- Strategy instance whose position sizing always returns zero shares:
every open attempt is rejected at the sizing step. -/
def stratZero : Enhanced.StratFns :=
  { trailingStopPct := none
    calcPositionSize := fun _ _ _ _ => 0
    calcStops := fun _ _ _ _ => (none, none)
    updateTrailingStop := fun _ _ _ => none }

/-- Concrete open long trade with stop 95 and take-profit 110. -/
def tradeLongW : Enhanced.Trade := Enhanced.mkTrade "A" 0 100 10 1 (some 95) (some 110)

/-- Concrete open short trade with stop 110 and take-profit 90. -/
def tradeShortW : Enhanced.Trade := Enhanced.mkTrade "A" 0 100 10 (-1) (some 110) (some 90)

/-- Enhanced-engine state holding the long trade `tradeLongW`. -/
def engineLongW : Enhanced.Engine :=
  { initialCapital := 100000
    commissionPct := 1 / 1000
    slippagePct := 1 / 2000
    checkIntrabarStops := true
    equity := 100000
    cash := 98999
    positions := [("A", tradeLongW)]
    closedTrades := []
    equityCurve := [] }

/-- Enhanced-engine state holding the short trade `tradeShortW`. -/
def engineShortW : Enhanced.Engine :=
  { initialCapital := 100000
    commissionPct := 1 / 1000
    slippagePct := 0
    checkIntrabarStops := true
    equity := 100000
    cash := 100000
    positions := [("A", tradeShortW)]
    closedTrades := []
    equityCurve := [] }

/-- Concrete open portfolio position: 5 shares entered at 100. -/
def posW : Portfolio.Position :=
  { symbol := "A", entryDate := 0, entryPrice := 100, shares := 5,
    stopPrice := 95, entryValue := 500, currentValue := 0, unrealizedPnl := 0 }

/-- Portfolio engine holding `posW`, used for close-side witnesses. -/
def engineC4 : Portfolio.Engine :=
  { Portfolio.mkEngine 1000 1 (1 / 1000) 0 10 1 0 with
    cash := 500
    positions := [("A", posW)] }

/-- Bar touching both the stop and the take-profit of `tradeLongW`. -/
def barTouchW : Enhanced.Bar :=
  { date := 5, openP := 100, highP := 111, lowP := 94, closeP := 100, atr := none }

/-- Quiet bar away from the stops of the witness trades. -/
def barQuietW : Enhanced.Bar :=
  { date := 5, openP := 100, highP := 101, lowP := 99, closeP := 100, atr := none }

/-! ### Helper lemmas on association-list ledgers -/

theorem ledgerKeys_nil {β : Type} : ledgerKeys ([] : List (String × β)) = [] := rfl

theorem ledgerKeys_cons {β : Type} (k : String) (v : β) (l : List (String × β)) :
    ledgerKeys ((k, v) :: l) = k :: ledgerKeys l := rfl

theorem ledgerKeys_append {β : Type} (l1 l2 : List (String × β)) :
    ledgerKeys (l1 ++ l2) = ledgerKeys l1 ++ ledgerKeys l2 := by
  simp [ledgerKeys]

theorem lookup_cons_self {β : Type} (k : String) (v : β) (l : List (String × β)) :
    ((k, v) :: l).lookup k = some v := by
  simp [List.lookup]

theorem lookup_cons_ne {β : Type} (k s : String) (v : β) (l : List (String × β))
    (h : s ≠ k) : ((k, v) :: l).lookup s = l.lookup s := by
  simp [List.lookup, show (s == k) = false from by simpa using h]

theorem lookup_eq_none_iff {β : Type} (l : List (String × β)) (s : String) :
    l.lookup s = none ↔ s ∉ ledgerKeys l := by
  induction l with
  | nil => simp [ledgerKeys_nil]
  | cons a l ih =>
      obtain ⟨k, v⟩ := a
      by_cases h : s = k
      · subst h
        simp [lookup_cons_self, ledgerKeys_cons]
      · rw [lookup_cons_ne _ _ _ _ h, ledgerKeys_cons, ih]
        simp [List.mem_cons, h]

theorem lookup_append_of_none {β : Type} (l1 l2 : List (String × β)) (s : String)
    (h : l1.lookup s = none) : (l1 ++ l2).lookup s = l2.lookup s := by
  induction l1 with
  | nil => simp
  | cons a l ih =>
      obtain ⟨k, v⟩ := a
      by_cases hk : s = k
      · subst hk
        rw [lookup_cons_self] at h
        exact absurd h (by simp)
      · rw [lookup_cons_ne _ _ _ _ hk] at h
        rw [List.cons_append, lookup_cons_ne _ _ _ _ hk]
        exact ih h

theorem lookup_filter_ne {β : Type} (l : List (String × β)) (s : String) :
    (l.filter (fun sp => sp.1 ≠ s)).lookup s = none := by
  induction l with
  | nil => simp
  | cons a l ih =>
      obtain ⟨k, v⟩ := a
      by_cases h : k = s
      · simpa [List.filter, h] using ih
      · rw [show ((k, v) :: l).filter (fun sp => sp.1 ≠ s) =
            (k, v) :: l.filter (fun sp => sp.1 ≠ s) from by simp [List.filter, h]]
        rw [lookup_cons_ne _ _ _ _ (Ne.symm h)]
        exact ih

theorem lookup_map_update {β : Type} (l : List (String × β)) (s : String) (v : β) :
    (l.map (fun sp => if sp.1 = s then (sp.1, v) else sp)).lookup s =
      (l.lookup s).map (fun _ => v) := by
  induction l with
  | nil => simp
  | cons a l ih =>
      obtain ⟨k, w⟩ := a
      by_cases h : k = s
      · subst h
        simp only [List.map_cons, eq_self_iff_true, if_true]
        rw [lookup_cons_self, lookup_cons_self]
        rfl
      · simp only [List.map_cons, if_neg h]
        rw [lookup_cons_ne _ _ _ _ (Ne.symm h), lookup_cons_ne _ _ _ _ (Ne.symm h)]
        exact ih

theorem ledgerKeys_map_of_fst_eq {β : Type} (g : String × β → String × β)
    (hg : ∀ sp, (g sp).1 = sp.1) (l : List (String × β)) :
    ledgerKeys (l.map g) = ledgerKeys l := by
  unfold ledgerKeys
  rw [List.map_map]
  exact List.map_congr_left (fun a _ => hg a)

/-! ### C1: capital check and resizing in `open_position` -/

/-- C1 counterexample: engine with 150 cash, fixed commission 1, 0.1%
commission, no reserve.  Opening 3 shares at price 100 requires 301 > 150,
so the resize path runs; it opens successfully with 1 share even though
1 share is only a third of the desired size — the 50% admission test is
applied to available capital versus desired position value, not to the
resized share count. -/
theorem C1_resize_counterexample :
    (Portfolio.open_position engineC1 "A" 0 100 3 90).1 = true ∧
    ((Portfolio.open_position engineC1 "A" 0 100 3 90).2.positions.lookup "A").map
      Portfolio.Position.shares = some 1 ∧
    (Portfolio.open_position engineC1 "A" 0 100 3 90).2.cash = 49 ∧
    ¬ ((1 : ℚ) ≥ (1 / 2) * 3) := by
  have h : Portfolio.open_position engineC1 "A" 0 100 3 90 =
      (true, { engineC1 with
        cash := 49
        positions := [("A",
          { symbol := "A", entryDate := 0, entryPrice := 100, shares := 1,
            stopPrice := 90, entryValue := 100, currentValue := 0,
            unrealizedPnl := 0 })] }) := by
    unfold Portfolio.open_position
    norm_num [engineC1, Portfolio.mkEngine, Portfolio.can_open_position,
      Portfolio.get_available_capital, pyInt, List.lookup]
  rw [h]
  refine ⟨rfl, by simp, rfl, by norm_num⟩

/-- C1 amended: when required cash (trade value plus commission) exceeds
cash, the open succeeds exactly when available capital is at least half
the desired position value and the truncated resized share count is
nonzero; on failure cash and the ledger are unchanged; on success the
position holds `int(available / (actual_price * (1 + commission_pct)))`
shares — a count that need not be at least half of the desired count. -/
theorem C1_resize_amended (e : Portfolio.Engine) (symbol : String) (d : ℤ)
    (p : ℚ) (n : ℤ) (st : ℚ)
    (h1 : e.positions.lookup symbol = none)
    (h2 : Portfolio.can_open_position e = true)
    (h3 : p * (1 + e.slippagePct) * (n : ℚ) +
      max e.commissionPerTrade (p * (1 + e.slippagePct) * (n : ℚ) * e.commissionPct) >
        e.cash) :
    ((Portfolio.open_position e symbol d p n st).1 = true ↔
      ¬ Portfolio.get_available_capital e < p * (1 + e.slippagePct) * (n : ℚ) * (1 / 2) ∧
        pyInt (Portfolio.get_available_capital e /
          (p * (1 + e.slippagePct) * (1 + e.commissionPct))) ≠ 0) ∧
    ((Portfolio.open_position e symbol d p n st).1 = false →
      (Portfolio.open_position e symbol d p n st).2 = e) ∧
    ((Portfolio.open_position e symbol d p n st).1 = true →
      ((Portfolio.open_position e symbol d p n st).2.positions.lookup symbol).map
          Portfolio.Position.shares =
        some (pyInt (Portfolio.get_available_capital e /
          (p * (1 + e.slippagePct) * (1 + e.commissionPct))))) := by
  unfold Portfolio.open_position
  rw [h1]
  simp only [Option.isSome_none, Bool.false_eq_true, if_false, h2, not_true_eq_false,
    if_pos h3]
  by_cases hav : Portfolio.get_available_capital e <
      p * (1 + e.slippagePct) * (n : ℚ) * (1 / 2)
  · rw [if_pos hav]
    exact ⟨⟨fun hc => absurd hc (by simp), fun hr => absurd hav hr.1⟩,
      fun _ => rfl, fun hc => absurd hc (by simp)⟩
  · rw [if_neg hav]
    by_cases hz : pyInt (Portfolio.get_available_capital e /
        (p * (1 + e.slippagePct) * (1 + e.commissionPct))) = 0
    · rw [if_pos hz]
      exact ⟨⟨fun hc => absurd hc (by simp), fun hr => absurd hz hr.2⟩,
        fun _ => rfl, fun hc => absurd hc (by simp)⟩
    · rw [if_neg hz]
      refine ⟨⟨fun _ => ⟨hav, hz⟩, fun _ => rfl⟩,
        fun hc => absurd hc (by simp), fun _ => ?_⟩
      rw [lookup_append_of_none _ _ _ h1, lookup_cons_self]
      rfl

/-- C1 witness: the amended theorem applied to the concrete engine of the
counterexample, where the resize branch is taken and succeeds. -/
theorem C1_resize_witness :
    ((Portfolio.open_position engineC1 "A" 0 100 3 90).2.positions.lookup "A").map
        Portfolio.Position.shares =
      some (pyInt (Portfolio.get_available_capital engineC1 /
        (100 * (1 + engineC1.slippagePct) * (1 + engineC1.commissionPct)))) := by
  refine (C1_resize_amended engineC1 "A" 0 100 3 90 (by simp [engineC1, Portfolio.mkEngine])
    (by simp [engineC1, Portfolio.mkEngine, Portfolio.can_open_position])
    (by norm_num [engineC1, Portfolio.mkEngine])).2.2 ?_
  have h : Portfolio.open_position engineC1 "A" 0 100 3 90 =
      (true, { engineC1 with
        cash := 49
        positions := [("A",
          { symbol := "A", entryDate := 0, entryPrice := 100, shares := 1,
            stopPrice := 90, entryValue := 100, currentValue := 0,
            unrealizedPnl := 0 })] }) := by
    unfold Portfolio.open_position
    norm_num [engineC1, Portfolio.mkEngine, Portfolio.can_open_position,
      Portfolio.get_available_capital, pyInt, List.lookup]
  rw [h]

/-! ### C3: the ledger never holds two positions for one symbol -/

theorem keysNodup_open (e : Portfolio.Engine) (s : String) (d : ℤ) (p : ℚ)
    (n : ℤ) (st : ℚ) (hnd : keysNodup e.positions) :
    keysNodup (Portfolio.open_position e s d p n st).2.positions := by
  unfold Portfolio.open_position
  by_cases h1 : (e.positions.lookup s).isSome = true
  · rw [if_pos h1]
    exact hnd
  · rw [if_neg h1]
    have hnone : e.positions.lookup s = none := by
      cases hcase : e.positions.lookup s with
      | none => rfl
      | some v => rw [hcase] at h1; exact absurd rfl h1
    have hnotin : s ∉ ledgerKeys e.positions := (lookup_eq_none_iff _ _).mp hnone
    by_cases h2 : Portfolio.can_open_position e = true
    · rw [if_neg (by simp [h2])]
      dsimp only
      split
      · exact hnd
      · unfold keysNodup
        rw [ledgerKeys_append]
        refine (List.nodup_append).mpr ⟨hnd, List.nodup_singleton _, ?_⟩
        intro a ha hb
        simp [ledgerKeys] at hb
        subst hb
        exact hnotin ha
    · rw [if_pos (by simp [h2])]
      exact hnd

theorem keysNodup_close (e : Portfolio.Engine) (s : String) (dt : ℤ) (px : ℚ)
    (r : String) (hnd : keysNodup e.positions) :
    keysNodup (Portfolio.close_position e s dt px r).2.positions := by
  unfold Portfolio.close_position
  split
  · exact hnd
  · refine List.Nodup.sublist ?_ hnd
    exact List.Sublist.map _ (List.filter_sublist _)

theorem keysNodup_update (e : Portfolio.Engine) (dt : ℤ)
    (prices : List (String × ℚ)) (hnd : keysNodup e.positions) :
    keysNodup (Portfolio.update_equity e dt prices).positions := by
  unfold Portfolio.update_equity keysNodup
  rw [ledgerKeys_map_of_fst_eq]
  · exact hnd
  · intro sp
    cases h : prices.lookup sp.1 <;> simp [h]

theorem keysNodup_run (ops : List Portfolio.Op) :
    ∀ e : Portfolio.Engine, keysNodup e.positions →
      keysNodup (Portfolio.runOps e ops).positions := by
  induction ops with
  | nil => exact fun e h => h
  | cons op ops ih =>
      intro e h
      refine ih _ ?_
      cases op with
      | openPos s d p n st => exact keysNodup_open e s d p n st h
      | closePos s d p r => exact keysNodup_close e s d p r h
      | update d prices => exact keysNodup_update e d prices h

/-- C3: for every sequence of engine calls the ledger keys stay pairwise
distinct (never two open positions for one symbol), and `open_position`
returns failure as a strict no-op whenever the symbol already has an open
position or the ledger already holds `max_positions` positions. -/
theorem C3_at_most_one_position :
    (∀ (cap fc cp sp : ℚ) (mp : ℕ) (mpp rc : ℚ) (ops : List Portfolio.Op),
      keysNodup (Portfolio.runOps (Portfolio.mkEngine cap fc cp sp mp mpp rc) ops).positions) ∧
    (∀ (e : Portfolio.Engine) (s : String) (d : ℤ) (p : ℚ) (n : ℤ) (st : ℚ),
      (e.positions.lookup s).isSome = true ∨ e.maxPositions ≤ e.positions.length →
      Portfolio.open_position e s d p n st = (false, e)) := by
  constructor
  · intro cap fc cp sp mp mpp rc ops
    refine keysNodup_run ops _ ?_
    simp [Portfolio.mkEngine, keysNodup, ledgerKeys_nil]
  · intro e s d p n st h
    unfold Portfolio.open_position
    rcases h with h | h
    · rw [if_pos h]
    · by_cases h1 : (e.positions.lookup s).isSome = true
      · rw [if_pos h1]
      · rw [if_neg h1, if_pos (by simp [Portfolio.can_open_position]; omega)]

/-- C3 witness: a concrete run keeps distinct keys, and an open against an
engine whose `max_positions` is zero is rejected without state change. -/
theorem C3_at_most_one_position_witness :
    keysNodup (Portfolio.runOps (Portfolio.mkEngine 100 1 0 0 2 1 0)
      [.openPos "A" 0 10 1 9]).positions ∧
    Portfolio.open_position (Portfolio.mkEngine 100 1 0 0 0 1 0) "B" 0 10 1 9 =
      (false, Portfolio.mkEngine 100 1 0 0 0 1 0) :=
  ⟨C3_at_most_one_position.1 100 1 0 0 2 1 0 [.openPos "A" 0 10 1 9],
   C3_at_most_one_position.2 (Portfolio.mkEngine 100 1 0 0 0 1 0) "B" 0 10 1 9
     (Or.inr (by simp [Portfolio.mkEngine]))⟩

/-! ### C4: commission formula on every fill -/

/-- C4: on every successful portfolio open the cash deducted is the
position value plus `max(fixed, value * pct)` where the value is the
post-slippage price times the filled share count (also after a resize); on
every portfolio close the cash credited is the exit value minus the same
hybrid commission; the enhanced engine charges `value * pct`, i.e. the
hybrid formula with a zero fixed commission. -/
theorem C4_commission_hybrid :
    (∀ (e e2 : Portfolio.Engine) (s : String) (d : ℤ) (p : ℚ) (n : ℤ) (st : ℚ),
      Portfolio.open_position e s d p n st = (true, e2) →
      ∃ pos : Portfolio.Position,
        e2.positions.lookup s = some pos ∧
        pos.entryPrice = p * (1 + e.slippagePct) ∧
        pos.entryValue = pos.entryPrice * (pos.shares : ℚ) ∧
        e.cash - e2.cash =
          pos.entryValue + max e.commissionPerTrade (pos.entryValue * e.commissionPct)) ∧
    (∀ (e : Portfolio.Engine) (s : String) (dt : ℤ) (px : ℚ) (r : String)
      (pos : Portfolio.Position), e.positions.lookup s = some pos →
      (Portfolio.close_position e s dt px r).2.cash - e.cash =
        px * (1 - e.slippagePct) * (pos.shares : ℚ) -
          max e.commissionPerTrade
            (px * (1 - e.slippagePct) * (pos.shares : ℚ) * e.commissionPct)) ∧
    (∀ (e : Enhanced.Engine) (fns : Enhanced.StratFns) (s : String) (d : ℤ)
      (p : ℚ) (dir : ℤ) (atr : Option ℚ), e.positions.lookup s = none →
      ∀ t : Enhanced.Trade,
        (Enhanced.openPosition e fns s d p dir atr).positions.lookup s = some t →
        0 ≤ t.entryPrice * (t.shares : ℚ) * e.commissionPct →
        t.entryPrice = p * (1 + e.slippagePct * (dir : ℚ)) ∧
        e.cash - (Enhanced.openPosition e fns s d p dir atr).cash =
          t.entryPrice * (t.shares : ℚ) +
            max 0 (t.entryPrice * (t.shares : ℚ) * e.commissionPct)) := by
  refine ⟨?_, ?_, ?_⟩
  · intro e e2 s d p n st hres
    unfold Portfolio.open_position at hres
    by_cases h1 : (e.positions.lookup s).isSome = true
    · rw [if_pos h1] at hres
      exact absurd (congrArg Prod.fst hres) (by simp)
    · rw [if_neg h1] at hres
      have hnone : e.positions.lookup s = none := by
        cases hcase : e.positions.lookup s with
        | none => rfl
        | some v => rw [hcase] at h1; exact absurd rfl h1
      by_cases h2 : Portfolio.can_open_position e = true
      · rw [if_neg (not_not_intro h2)] at hres
        dsimp only at hres
        split at hres
        · exact absurd (congrArg Prod.fst hres) (by simp)
        · rename_i sh v t heq
          injection hres with hb he2
          subst he2
          have hv : v = p * (1 + e.slippagePct) * (sh : ℚ) ∧
              t = v + max e.commissionPerTrade (v * e.commissionPct) := by
            split_ifs at heq with hc hav hz
            · simp only [Option.some.injEq, Prod.mk.injEq] at heq
              obtain ⟨rfl, rfl, rfl⟩ := heq
              exact ⟨rfl, rfl⟩
            · simp only [Option.some.injEq, Prod.mk.injEq] at heq
              obtain ⟨rfl, rfl, rfl⟩ := heq
              exact ⟨rfl, rfl⟩
          refine ⟨⟨s, d, p * (1 + e.slippagePct), sh, st, v, 0, 0⟩, ?_, rfl, ?_, ?_⟩
          · rw [lookup_append_of_none _ _ _ hnone, lookup_cons_self]
          · exact hv.1
          · rw [hv.2]; ring
      · rw [if_pos h2] at hres
        exact absurd (congrArg Prod.fst hres) (by simp)
  · intro e s dt px r pos hpos
    unfold Portfolio.close_position
    rw [hpos]
    dsimp only
    ring
  · intro e fns s d p dir atr hnone t hres hcomm
    unfold Enhanced.openPosition at hres ⊢
    by_cases hsh : fns.calcPositionSize s p e.equity atr ≤ 0
    · rw [if_pos hsh] at hres
      rw [hnone] at hres
      exact absurd hres (by simp)
    · rw [if_neg hsh] at hres
      rw [if_neg hsh]
      dsimp only at hres ⊢
      split at hres
      · rw [hnone] at hres
        exact absurd hres (by simp)
      · rename_i sh cost heq
        rw [lookup_append_of_none _ _ _ hnone, lookup_cons_self] at hres
        obtain rfl : Enhanced.mkTrade s d (p * (1 + e.slippagePct * (dir : ℚ))) sh dir
            (fns.calcStops s (p * (1 + e.slippagePct * (dir : ℚ))) dir atr).1
            (fns.calcStops s (p * (1 + e.slippagePct * (dir : ℚ))) dir atr).2 = t := by
          simpa using hres
        have hcost : cost = p * (1 + e.slippagePct * (dir : ℚ)) * (sh : ℚ) +
            p * (1 + e.slippagePct * (dir : ℚ)) * (sh : ℚ) * e.commissionPct := by
          split_ifs at heq with hc hz
          · simp only [Option.some.injEq, Prod.mk.injEq] at heq
            obtain ⟨rfl, rfl⟩ := heq
            ring
          · simp only [Option.some.injEq, Prod.mk.injEq] at heq
            obtain ⟨rfl, rfl⟩ := heq
            ring
        refine ⟨rfl, ?_⟩
        rw [max_eq_right hcomm]
        dsimp only [Enhanced.mkTrade]
        rw [hcost]
        ring

/-- C4 witness: the close-side formula at the concrete engine `engineC4`
holding position `posW`. -/
theorem C4_commission_hybrid_witness :
    (Portfolio.close_position engineC4 "A" 3 110 "Exit Signal").2.cash -
        engineC4.cash =
      110 * (1 - engineC4.slippagePct) * (posW.shares : ℚ) -
        max engineC4.commissionPerTrade
          (110 * (1 - engineC4.slippagePct) * (posW.shares : ℚ) *
            engineC4.commissionPct) :=
  C4_commission_hybrid.2.1 engineC4 "A" 3 110 "Exit Signal" posW
    (lookup_cons_self "A" posW [])

/-! ### C7: peak equity and maximum drawdown -/

theorem ite_gt_eq_max (a b : ℚ) : (if b > a then b else a) = max a b := by
  split_ifs with h
  · exact (max_eq_right h.le).symm
  · exact (max_eq_left (not_lt.mp h)).symm

theorem open_risk_fields (e : Portfolio.Engine) (s : String) (d : ℤ) (p : ℚ)
    (n : ℤ) (st : ℚ) :
    (Portfolio.open_position e s d p n st).2.peakEquity = e.peakEquity ∧
    (Portfolio.open_position e s d p n st).2.maxDrawdown = e.maxDrawdown ∧
    (Portfolio.open_position e s d p n st).2.equityCurve = e.equityCurve := by
  unfold Portfolio.open_position
  by_cases h1 : (e.positions.lookup s).isSome = true
  · rw [if_pos h1]; exact ⟨rfl, rfl, rfl⟩
  · rw [if_neg h1]
    by_cases h2 : Portfolio.can_open_position e = true
    · rw [if_neg (not_not_intro h2)]
      dsimp only
      split <;> exact ⟨rfl, rfl, rfl⟩
    · rw [if_pos h2]; exact ⟨rfl, rfl, rfl⟩

theorem close_risk_fields (e : Portfolio.Engine) (s : String) (dt : ℤ) (px : ℚ)
    (r : String) :
    (Portfolio.close_position e s dt px r).2.peakEquity = e.peakEquity ∧
    (Portfolio.close_position e s dt px r).2.maxDrawdown = e.maxDrawdown ∧
    (Portfolio.close_position e s dt px r).2.equityCurve = e.equityCurve := by
  unfold Portfolio.close_position
  split <;> exact ⟨rfl, rfl, rfl⟩

theorem update_risk_fields (e : Portfolio.Engine) (d : ℤ)
    (prices : List (String × ℚ)) :
    ∃ eq : ℚ,
      (Portfolio.update_equity e d prices).equityCurve =
        e.equityCurve ++ [(d, eq, e.cash)] ∧
      (Portfolio.update_equity e d prices).peakEquity = max e.peakEquity eq ∧
      (Portfolio.update_equity e d prices).maxDrawdown =
        max e.maxDrawdown ((max e.peakEquity eq - eq) / max e.peakEquity eq) := by
  unfold Portfolio.update_equity
  dsimp only
  refine ⟨_, rfl, ?_, ?_⟩
  · rw [ite_gt_eq_max]
  · rw [ite_gt_eq_max, ite_gt_eq_max]

theorem curveEquities_append (c1 c2 : List (ℤ × ℚ × ℚ)) :
    curveEquities (c1 ++ c2) = curveEquities c1 ++ curveEquities c2 := by
  simp [curveEquities]

theorem foldl_pdStep_fst_le (l : List ℚ) :
    ∀ pd : ℚ × ℚ, pd.1 ≤ (l.foldl pdStep pd).1 := by
  induction l with
  | nil => intro pd; exact le_refl _
  | cons x l ih =>
      intro pd
      calc pd.1 ≤ (pdStep pd x).1 := le_max_left _ _
        _ ≤ (l.foldl pdStep (pdStep pd x)).1 := ih _

theorem foldl_pdStep_snd_le (l : List ℚ) :
    ∀ pd : ℚ × ℚ, pd.2 ≤ (l.foldl pdStep pd).2 := by
  induction l with
  | nil => intro pd; exact le_refl _
  | cons x l ih =>
      intro pd
      calc pd.2 ≤ (pdStep pd x).2 := le_max_left _ _
        _ ≤ (l.foldl pdStep (pdStep pd x)).2 := ih _

theorem foldl_pdStep_le_one (l : List ℚ) :
    ∀ pd : ℚ × ℚ, 0 < pd.1 → pd.2 ≤ 1 → (∀ x ∈ l, 0 ≤ x) →
      (l.foldl pdStep pd).2 ≤ 1 := by
  induction l with
  | nil => intro pd _ h2 _; exact h2
  | cons x l ih =>
      intro pd h1 h2 hx
      refine ih _ (lt_of_lt_of_le h1 (le_max_left _ _)) ?_
        (fun y hy => hx y (List.mem_cons_of_mem _ hy))
      refine max_le h2 ?_
      rw [div_le_one (lt_of_lt_of_le h1 (le_max_left _ _))]
      have := hx x (List.mem_cons_self _ _)
      linarith

theorem risk_step_invariant (cap : ℚ) (e : Portfolio.Engine) (op : Portfolio.Op)
    (h : (e.peakEquity, e.maxDrawdown) =
      specPeakDrawdown cap (curveEquities e.equityCurve)) :
    ((Portfolio.stepOp e op).peakEquity, (Portfolio.stepOp e op).maxDrawdown) =
      specPeakDrawdown cap (curveEquities (Portfolio.stepOp e op).equityCurve) := by
  cases op with
  | openPos s d p n st =>
      obtain ⟨hp, hm, hc⟩ := open_risk_fields e s d p n st
      rw [Portfolio.stepOp, hp, hm, hc, h]
  | closePos s d p r =>
      obtain ⟨hp, hm, hc⟩ := close_risk_fields e s d p r
      rw [Portfolio.stepOp, hp, hm, hc, h]
  | update d prices =>
      obtain ⟨eq, hc, hp, hm⟩ := update_risk_fields e d prices
      rw [Portfolio.stepOp, hp, hm, hc, curveEquities_append]
      rw [show curveEquities [(d, eq, e.cash)] = [eq] from rfl]
      unfold specPeakDrawdown
      rw [List.foldl_append]
      rw [show (curveEquities e.equityCurve).foldl pdStep (cap, 0) =
        (e.peakEquity, e.maxDrawdown) from (h.symm)]
      simp only [List.foldl_cons, List.foldl_nil, pdStep]

theorem risk_run_invariant (cap fc cp sp : ℚ) (mp : ℕ) (mpp rc : ℚ)
    (ops : List Portfolio.Op) :
    ((Portfolio.runOps (Portfolio.mkEngine cap fc cp sp mp mpp rc) ops).peakEquity,
      (Portfolio.runOps (Portfolio.mkEngine cap fc cp sp mp mpp rc) ops).maxDrawdown) =
      specPeakDrawdown cap (curveEquities
        (Portfolio.runOps (Portfolio.mkEngine cap fc cp sp mp mpp rc) ops).equityCurve) := by
  suffices h : ∀ (ops : List Portfolio.Op) (e : Portfolio.Engine),
      (e.peakEquity, e.maxDrawdown) = specPeakDrawdown cap (curveEquities e.equityCurve) →
      ((Portfolio.runOps e ops).peakEquity, (Portfolio.runOps e ops).maxDrawdown) =
        specPeakDrawdown cap (curveEquities (Portfolio.runOps e ops).equityCurve) by
    exact h ops _ (by simp [Portfolio.mkEngine, curveEquities, specPeakDrawdown])
  intro ops
  induction ops with
  | nil => exact fun e h => h
  | cons op ops ih => exact fun e h => ih _ (risk_step_invariant cap e op h)

theorem peak_step_le (e : Portfolio.Engine) (op : Portfolio.Op) :
    e.peakEquity ≤ (Portfolio.stepOp e op).peakEquity := by
  cases op with
  | openPos s d p n st => rw [Portfolio.stepOp, (open_risk_fields e s d p n st).1]
  | closePos s d p r => rw [Portfolio.stepOp, (close_risk_fields e s d p r).1]
  | update d prices =>
      obtain ⟨eq, _, hp, _⟩ := update_risk_fields e d prices
      rw [Portfolio.stepOp, hp]
      exact le_max_left _ _

theorem peak_run_le (ops : List Portfolio.Op) :
    ∀ e : Portfolio.Engine, e.peakEquity ≤ (Portfolio.runOps e ops).peakEquity := by
  induction ops with
  | nil => intro e; exact le_refl _
  | cons op ops ih =>
      intro e
      exact le_trans (peak_step_le e op) (ih _)

/-- C7 counterexample: the run `engineC7` resizes an open down to 6 shares
at a total cost of 61 against cash 60.5, leaving cash at -0.5; marking to
market at price 0.01 then gives equity -0.44, and the recorded maximum
drawdown is 277/275 > 1, outside [0, 1]. -/
theorem C7_drawdown_counterexample :
    engineC7.maxDrawdown = 277 / 275 ∧ ¬ ((277 : ℚ) / 275 ≤ 1) := by
  constructor
  · unfold engineC7 Portfolio.runOps
    simp only [List.foldl_cons, List.foldl_nil, Portfolio.stepOp]
    rw [show (Portfolio.open_position (Portfolio.mkEngine (121 / 2) 1 (1 / 1000) 0 10 1 0)
        "A" 0 10 12 9).2 =
      { Portfolio.mkEngine (121 / 2) 1 (1 / 1000) 0 10 1 0 with
        cash := -(1 / 2)
        positions := [("A", ⟨"A", 0, 10, 6, 9, 60, 0, 0⟩)] } from by
      unfold Portfolio.open_position
      norm_num [Portfolio.mkEngine, Portfolio.can_open_position,
        Portfolio.get_available_capital, pyInt, List.lookup]]
    unfold Portfolio.update_equity
    norm_num [Portfolio.mkEngine, Portfolio.updatePosition, List.lookup]
  · norm_num

/-- C7 amended: peak equity together with max drawdown equals the
spec-side running-max fold over the recorded equity samples, the peak is
monotonically non-decreasing along any extension of the run, and the max
drawdown is always nonnegative; it is bounded by 1 whenever every recorded
equity sample is nonnegative (positive initial capital), but can exceed 1
when equity goes negative. -/
theorem C7_peak_drawdown_amended (cap fc cp sp : ℚ) (mp : ℕ) (mpp rc : ℚ)
    (ops ops2 : List Portfolio.Op) :
    ((Portfolio.runOps (Portfolio.mkEngine cap fc cp sp mp mpp rc) ops).peakEquity,
      (Portfolio.runOps (Portfolio.mkEngine cap fc cp sp mp mpp rc) ops).maxDrawdown) =
      specPeakDrawdown cap (curveEquities
        (Portfolio.runOps (Portfolio.mkEngine cap fc cp sp mp mpp rc) ops).equityCurve) ∧
    (Portfolio.runOps (Portfolio.mkEngine cap fc cp sp mp mpp rc) ops).peakEquity ≤
      (Portfolio.runOps (Portfolio.mkEngine cap fc cp sp mp mpp rc) (ops ++ ops2)).peakEquity ∧
    0 ≤ (Portfolio.runOps (Portfolio.mkEngine cap fc cp sp mp mpp rc) ops).maxDrawdown ∧
    (0 < cap →
      (∀ q ∈ curveEquities
        (Portfolio.runOps (Portfolio.mkEngine cap fc cp sp mp mpp rc) ops).equityCurve,
        0 ≤ q) →
      (Portfolio.runOps (Portfolio.mkEngine cap fc cp sp mp mpp rc) ops).maxDrawdown ≤ 1) := by
  have hinv := risk_run_invariant cap fc cp sp mp mpp rc ops
  refine ⟨hinv, ?_, ?_, ?_⟩
  · rw [show Portfolio.runOps (Portfolio.mkEngine cap fc cp sp mp mpp rc) (ops ++ ops2) =
      Portfolio.runOps (Portfolio.runOps (Portfolio.mkEngine cap fc cp sp mp mpp rc) ops) ops2
      from List.foldl_append ..]
    exact peak_run_le ops2 _
  · have h2 := congrArg Prod.snd hinv
    dsimp at h2
    rw [h2]
    exact foldl_pdStep_snd_le _ _
  · intro hcap hq
    have h2 := congrArg Prod.snd hinv
    dsimp at h2
    rw [h2]
    exact foldl_pdStep_le_one _ _ hcap (by norm_num) hq

/-- C7 witness: a run consisting of a single equity update with no open
positions satisfies the amended bounds. -/
theorem C7_peak_drawdown_witness :
    (Portfolio.runOps (Portfolio.mkEngine 100 1 0 0 10 1 0)
      [.update 1 []]).maxDrawdown ≤ 1 := by
  refine (C7_peak_drawdown_amended 100 1 0 0 10 1 0 [.update 1 []] []).2.2.2
    (by norm_num) ?_
  intro q hq
  rw [show curveEquities (Portfolio.runOps (Portfolio.mkEngine 100 1 0 0 10 1 0)
      [.update 1 []]).equityCurve = [100] from by
    simp [Portfolio.runOps, Portfolio.stepOp, Portfolio.update_equity,
      Portfolio.mkEngine, curveEquities]] at hq
  rw [List.mem_singleton] at hq
  rw [hq]
  norm_num

/-! ### C8: analyzers on a run with zero closed trades -/

/-- C8 counterexample: with no closed trades the portfolio analyzer
returns the bare error record `{'error': 'No closed trades'}` and the
enhanced analyzer `{'error': 'No trades executed', ...}` — not a metrics
record with ratio fields set to 0. -/
theorem C8_no_trades_counterexample :
    Portfolio.get_performance_metrics
        (Portfolio.mkEngine 1000 1 (1 / 1000) (1 / 1000) 10 (1 / 10) (1 / 20)) =
      Portfolio.PerfReturn.err "No closed trades" ∧
    Enhanced.calculatePerformance engineShortW =
      Enhanced.PerfReturn.err "No trades executed" 100000 100000 :=
  ⟨rfl, rfl⟩

/-- C8 amended: with zero closed trades neither analyzer raises; each
returns early with an explicit error record (the portfolio engine a bare
`{'error': 'No closed trades'}`, the enhanced engine the error message
plus initial capital and final equity), with no ratio fields present. -/
theorem C8_no_trades_amended :
    (∀ e : Portfolio.Engine, e.closedTrades = [] →
      Portfolio.get_performance_metrics e =
        Portfolio.PerfReturn.err "No closed trades") ∧
    (∀ e : Enhanced.Engine, e.closedTrades = [] →
      Enhanced.calculatePerformance e =
        Enhanced.PerfReturn.err "No trades executed" e.initialCapital e.equity) := by
  constructor
  · intro e h
    simp [Portfolio.get_performance_metrics, h]
  · intro e h
    simp [Enhanced.calculatePerformance, h]

/-- C8 witness: the amended theorem applied to a fresh portfolio engine
and to the concrete enhanced state `engineShortW`. -/
theorem C8_no_trades_witness :
    Portfolio.get_performance_metrics
        (Portfolio.mkEngine 1000 1 (1 / 1000) (1 / 1000) 10 (1 / 10) (1 / 20)) =
      Portfolio.PerfReturn.err "No closed trades" ∧
    Enhanced.calculatePerformance engineShortW =
      Enhanced.PerfReturn.err "No trades executed" engineShortW.initialCapital
        engineShortW.equity :=
  ⟨C8_no_trades_amended.1 _ rfl, C8_no_trades_amended.2 engineShortW rfl⟩

/-! ### C5: trailing-stop ratchet -/

/-- C5 counterexample: one bar at close 100 with trailing percentage 5%
and a stored stop of 99 (highest price since entry is therefore 100).
`update_trailing_stop` keeps the stop at 99, which differs from
`highest_price_since_entry * (1 - trailing_pct) = 95`: the recomputation
uses the bar close and only ratchets upward, so the stored stop does not
equal the high-water formula. -/
theorem C5_trailing_counterexample :
    Strategy.update_trailing_stop (some (1 / 20)) [("A", 99)] "A" 100 .long =
      some 99 ∧ (99 : ℚ) ≠ 100 * (1 - 1 / 20) := by
  constructor
  · unfold Strategy.update_trailing_stop
    rw [lookup_cons_self]
    norm_num [optTruthy]
  · norm_num

theorem update_trailing_stop_long (pct : ℚ) (sym : String) (stop c : ℚ)
    (hp : pct ≠ 0) :
    Strategy.update_trailing_stop (some pct) [(sym, stop)] sym c .long =
      some (if c * (1 - pct) > stop then c * (1 - pct) else stop) := by
  unfold Strategy.update_trailing_stop
  rw [lookup_cons_self]
  simp only [optTruthy, ne_eq, hp, not_false_eq_true, decide_True, not_true_eq_false,
    Option.isNone_some, or_self, Bool.false_eq_true, if_false]
  split_ifs <;> rfl

theorem update_trailing_stop_short (pct : ℚ) (sym : String) (stop c : ℚ)
    (hp : pct ≠ 0) :
    Strategy.update_trailing_stop (some pct) [(sym, stop)] sym c .short =
      some (if c * (1 + pct) < stop then c * (1 + pct) else stop) := by
  unfold Strategy.update_trailing_stop
  rw [lookup_cons_self]
  simp only [optTruthy, ne_eq, hp, not_false_eq_true, decide_True, not_true_eq_false,
    Option.isNone_some, or_self, Bool.false_eq_true, if_false]
  split_ifs <;> rfl

theorem trailingStep_long_le (pct : ℚ) (sym : String) (stop c : ℚ) :
    stop ≤ Strategy.trailingStep pct .long sym stop c := by
  by_cases hp : pct = 0
  · unfold Strategy.trailingStep Strategy.update_trailing_stop
    rw [lookup_cons_self]
    simp [optTruthy, hp]
  · unfold Strategy.trailingStep
    rw [update_trailing_stop_long pct sym stop c hp]
    dsimp only
    split_ifs with h1 h2 h3 <;> try linarith
  
theorem trailingStep_short_ge (pct : ℚ) (sym : String) (stop c : ℚ) :
    Strategy.trailingStep pct .short sym stop c ≤ stop := by
  by_cases hp : pct = 0
  · unfold Strategy.trailingStep Strategy.update_trailing_stop
    rw [lookup_cons_self]
    simp [optTruthy, hp]
  · unfold Strategy.trailingStep
    rw [update_trailing_stop_short pct sym stop c hp]
    dsimp only
    split_ifs with h1 h2 h3 <;> try linarith
theorem trailingStep_long_eq_max (pct : ℚ) (sym : String) (stop c : ℚ)
    (hp : pct ≠ 0) (hs : 0 ≤ stop) :
    Strategy.trailingStep pct .long sym stop c = max stop (c * (1 - pct)) := by
  unfold Strategy.trailingStep
  rw [update_trailing_stop_long pct sym stop c hp]
  by_cases h : c * (1 - pct) > stop
  · rw [if_pos h]
    have hne : c * (1 - pct) ≠ 0 := ne_of_gt (lt_of_le_of_lt hs h)
    rw [max_eq_right h.le]
    simp [hne]
  · rw [if_neg h, max_eq_left (not_lt.mp h)]
    dsimp only
    rw [ite_self]

theorem trailingStep_short_eq_min (pct : ℚ) (sym : String) (stop c : ℚ)
    (hp : pct ≠ 0) (hc : 0 < c * (1 + pct)) :
    Strategy.trailingStep pct .short sym stop c = min stop (c * (1 + pct)) := by
  unfold Strategy.trailingStep
  rw [update_trailing_stop_short pct sym stop c hp]
  by_cases h : c * (1 + pct) < stop
  · rw [if_pos h, min_eq_right h.le]
    simp [ne_of_gt hc]
  · rw [if_neg h, min_eq_left (not_lt.mp h)]
    dsimp only
    rw [ite_self]

theorem head_scanl (f : ℚ → ℚ → ℚ) (b : ℚ) (l : List ℚ) :
    (l.scanl f b).head? = some b := by
  cases l <;> simp [List.scanl]

theorem chain_scanl_of_le (f : ℚ → ℚ → ℚ) (h : ∀ s c, s ≤ f s c) (l : List ℚ) :
    ∀ b : ℚ, List.Chain' (fun x y => x ≤ y) (l.scanl f b) := by
  induction l with
  | nil => intro b; simp [List.scanl]
  | cons c l ih =>
      intro b
      rw [List.scanl_cons, List.singleton_append]
      refine (List.chain'_cons').mpr ⟨?_, ih (f b c)⟩
      intro y hy
      rw [head_scanl, Option.mem_some_iff] at hy
      rw [← hy]
      exact h b c

theorem chain_scanl_of_ge (f : ℚ → ℚ → ℚ) (h : ∀ s c, f s c ≤ s) (l : List ℚ) :
    ∀ b : ℚ, List.Chain' (fun x y => y ≤ x) (l.scanl f b) := by
  induction l with
  | nil => intro b; simp [List.scanl]
  | cons c l ih =>
      intro b
      rw [List.scanl_cons, List.singleton_append]
      refine (List.chain'_cons').mpr ⟨?_, ih (f b c)⟩
      intro y hy
      rw [head_scanl, Option.mem_some_iff] at hy
      rw [← hy]
      exact h b c
/-- C5 amended: under iterated trailing updates the stored stop only
ratchets in the favorable direction — non-decreasing for longs,
non-increasing for shorts — and the stop after the updates equals
`max(initial_stop, max over closes of close * (1 - trailing_pct))` for a
long (mirrored with `min` and `(1 + trailing_pct)` for a short): the
reference price is the bar close, not the highest price since entry, and
the initial stop participates in the maximum, so the stored stop equals
`highest_price_since_entry * (1 - trailing_pct)` only when that value
exceeds the initial stop. -/
theorem C5_trailing_amended (pct : ℚ) (sym : String) (s0 : ℚ) (closes : List ℚ)
    (hp : pct ≠ 0) :
    List.Chain' (fun x y => x ≤ y) (Strategy.trailingStops pct .long sym s0 closes) ∧
    List.Chain' (fun x y => y ≤ x) (Strategy.trailingStops pct .short sym s0 closes) ∧
    (0 ≤ s0 → closes.foldl (Strategy.trailingStep pct .long sym) s0 =
      (closes.map (fun c => c * (1 - pct))).foldl max s0) ∧
    ((∀ c ∈ closes, 0 < c * (1 + pct)) →
      closes.foldl (Strategy.trailingStep pct .short sym) s0 =
        (closes.map (fun c => c * (1 + pct))).foldl min s0) := by
  refine ⟨chain_scanl_of_le _ (trailingStep_long_le pct sym) closes s0,
    chain_scanl_of_ge _ (trailingStep_short_ge pct sym) closes s0, ?_, ?_⟩
  · intro hs0
    induction closes generalizing s0 with
    | nil => rfl
    | cons c l ih =>
        rw [List.foldl_cons, List.map_cons, List.foldl_cons,
          trailingStep_long_eq_max pct sym s0 c hp hs0]
        exact ih _ (le_trans hs0 (le_max_left _ _))
  · intro hc
    induction closes generalizing s0 with
    | nil => rfl
    | cons c l ih =>
        rw [List.foldl_cons, List.map_cons, List.foldl_cons,
          trailingStep_short_eq_min pct sym s0 c hp (hc c (List.mem_cons_self _ _))]
        exact ih _ (fun x hx => hc x (List.mem_cons_of_mem _ hx))

/-- C5 witness: the amended theorem at trailing percentage 5%, initial
stop 99 and closes 100 then 110. -/
theorem C5_trailing_witness :
    [(100 : ℚ), 110].foldl (Strategy.trailingStep (1 / 20) .long "A") 99 =
      ([(100 : ℚ), 110].map (fun c => c * (1 - 1 / 20))).foldl max 99 :=
  (C5_trailing_amended (1 / 20) "A" 99 [100, 110] (by norm_num)).2.2.1 (by norm_num)

/-! ### C2, C6, C10: enhanced-engine bar processing -/

theorem closePosition_fields (e : Enhanced.Engine) (symbol : String) (d : ℤ)
    (px : ℚ) (r : String) (t : Enhanced.Trade)
    (hpos : e.positions.lookup symbol = some t) :
    (Enhanced.closePosition e symbol d px r).closedTrades =
      e.closedTrades ++
        [Enhanced.tradeClose t d (px * (1 - e.slippagePct * (t.direction : ℚ))) r] ∧
    (Enhanced.closePosition e symbol d px r).positions =
      e.positions.filter (fun sp => sp.1 ≠ symbol) ∧
    (Enhanced.closePosition e symbol d px r).cash =
      (if t.direction = 1 then
        e.cash + (px * (1 - e.slippagePct * (t.direction : ℚ)) * (t.shares : ℚ) -
          px * (1 - e.slippagePct * (t.direction : ℚ)) * (t.shares : ℚ) * e.commissionPct)
      else
        e.cash + t.entryPrice * (t.shares : ℚ) +
          (t.entryPrice - px * (1 - e.slippagePct * (t.direction : ℚ))) * (t.shares : ℚ) -
          px * (1 - e.slippagePct * (t.direction : ℚ)) * (t.shares : ℚ) * e.commissionPct) := by
  unfold Enhanced.closePosition
  rw [hpos]
  dsimp only
  refine ⟨rfl, rfl, ?_⟩
  split_ifs <;> rfl
/-- C2: whenever both the stop and the take-profit of an open position are
touched inside one bar (long: the low touches the stop and the high the
target; short mirrored with high/low swapped), the intrabar check closes
the position with exit reason "Stop Loss", never "Take Profit". -/
theorem C2_stop_priority (e : Enhanced.Engine) (fns : Enhanced.StratFns)
    (symbol : String) (bar : Enhanced.Bar) (t : Enhanced.Trade) (sp tp : ℚ)
    (hpos : e.positions.lookup symbol = some t)
    (hchk : e.checkIntrabarStops = true)
    (hstop : t.stopPrice = some sp) (hsp : sp ≠ 0)
    (htp : t.takeProfitPrice = some tp)
    (htouch : (t.direction = 1 ∧ bar.lowP ≤ sp ∧ tp ≤ bar.highP) ∨
      (t.direction = -1 ∧ sp ≤ bar.highP ∧ bar.lowP ≤ tp)) :
    ((Enhanced.checkStopsPhase e fns symbol bar).1.closedTrades.getLast?).map
        Enhanced.Trade.exitReason = some (some "Stop Loss") ∧
    (Enhanced.checkStopsPhase e fns symbol bar).2 = true := by
  unfold Enhanced.checkStopsPhase
  rw [hpos]
  dsimp only
  have hstop2 : (Enhanced.updateMaeMfe t bar.closeP).stopPrice = some sp := by
    simp [Enhanced.updateMaeMfe, hstop]
  have hdir2 : (Enhanced.updateMaeMfe t bar.closeP).direction = t.direction := by
    simp [Enhanced.updateMaeMfe]
  have hpos0 : (e.positions.map (fun sp =>
      if sp.1 = symbol then (sp.1, Enhanced.updateMaeMfe t bar.closeP) else sp)).lookup
        symbol = some (Enhanced.updateMaeMfe t bar.closeP) := by
    rw [lookup_map_update, hpos]
    rfl
  rw [if_pos hchk]
  rcases htouch with ⟨hd, hlow, hhigh⟩ | ⟨hd, hhigh, hlow⟩
  · have hdirL : (Enhanced.updateMaeMfe t bar.closeP).direction = 1 := by rw [hdir2, hd]
    rw [if_pos hdirL, hstop2]
    dsimp only
    rw [if_pos (show sp ≠ 0 ∧ bar.lowP ≤ sp from ⟨hsp, hlow⟩)]
    obtain ⟨hct, hpo, -⟩ := closePosition_fields
      { e with positions := e.positions.map (fun sp =>
          if sp.1 = symbol then (sp.1, Enhanced.updateMaeMfe t bar.closeP) else sp) }
      symbol bar.date sp "Stop Loss" (Enhanced.updateMaeMfe t bar.closeP) hpos0
    have hlk : (Enhanced.closePosition
        { e with positions := e.positions.map (fun sp =>
            if sp.1 = symbol then (sp.1, Enhanced.updateMaeMfe t bar.closeP) else sp) }
        symbol bar.date sp "Stop Loss").positions.lookup symbol = none := by
      rw [hpo]
      exact lookup_filter_ne _ _
    refine ⟨?_, rfl⟩
    rw [if_neg (by rw [hlk]; simp)]
    rw [hct]
    simp [Enhanced.tradeClose]
  · have hdirS : (Enhanced.updateMaeMfe t bar.closeP).direction = -1 := by rw [hdir2, hd]
    rw [if_neg (show ¬ (Enhanced.updateMaeMfe t bar.closeP).direction = 1 from by
      rw [hdirS]; decide), hstop2]
    dsimp only
    rw [if_pos (show sp ≠ 0 ∧ sp ≤ bar.highP from ⟨hsp, hhigh⟩)]
    obtain ⟨hct, hpo, -⟩ := closePosition_fields
      { e with positions := e.positions.map (fun sp =>
          if sp.1 = symbol then (sp.1, Enhanced.updateMaeMfe t bar.closeP) else sp) }
      symbol bar.date sp "Stop Loss" (Enhanced.updateMaeMfe t bar.closeP) hpos0
    have hlk : (Enhanced.closePosition
        { e with positions := e.positions.map (fun sp =>
            if sp.1 = symbol then (sp.1, Enhanced.updateMaeMfe t bar.closeP) else sp) }
        symbol bar.date sp "Stop Loss").positions.lookup symbol = none := by
      rw [hpo]
      exact lookup_filter_ne _ _
    refine ⟨?_, rfl⟩
    rw [if_neg (by rw [hlk]; simp)]
    rw [hct]
    simp [Enhanced.tradeClose]

/-- C2 witness: the long trade `tradeLongW` (stop 95, target 110) against
the bar `barTouchW` (low 94, high 111), which touches both levels. -/
theorem C2_stop_priority_witness :
    ((Enhanced.checkStopsPhase engineLongW stratZero "A" barTouchW).1.closedTrades.getLast?).map
        Enhanced.Trade.exitReason = some (some "Stop Loss") ∧
    (Enhanced.checkStopsPhase engineLongW stratZero "A" barTouchW).2 = true :=
  C2_stop_priority engineLongW stratZero "A" barTouchW tradeLongW 95 110
    (lookup_cons_self "A" tradeLongW []) rfl rfl (by norm_num) rfl
    (Or.inl ⟨rfl, by norm_num [barTouchW], by norm_num [barTouchW]⟩)
/-- C10: if the intrabar stop phase fired (a stop-loss or take-profit exit
closed the position on this bar), the bar's signal is zeroed: the whole bar
step behaves exactly as if the signal were NONE, so no open, reversal, or
exit-signal processing happens on that bar. -/
theorem C10_stop_discards_signal (e : Enhanced.Engine) (fns : Enhanced.StratFns)
    (symbol : String) (bar : Enhanced.Bar) (sig : ℤ)
    (hfire : (Enhanced.checkStopsPhase e fns symbol bar).2 = true) :
    Enhanced.barStep e fns symbol bar sig = Enhanced.barStep e fns symbol bar 0 := by
  unfold Enhanced.barStep
  dsimp only
  rw [if_pos hfire, if_pos hfire]

/-- C10 witness: on the bar `barTouchW`, which touches the stop of the open
long `tradeLongW`, processing a LONG entry signal equals processing no
signal at all. -/
theorem C10_stop_discards_signal_witness :
    Enhanced.barStep engineLongW stratZero "A" barTouchW 1 =
      Enhanced.barStep engineLongW stratZero "A" barTouchW 0 :=
  C10_stop_discards_signal engineLongW stratZero "A" barTouchW 1 (by
    unfold Enhanced.checkStopsPhase
    norm_num [engineLongW, tradeLongW, barTouchW, Enhanced.mkTrade,
      Enhanced.updateMaeMfe, List.lookup])

/-- C6: on a reversal bar (LONG signal while a short position is open, or
SHORT signal while a long is open) the close commits first: the closed
trade is appended with reason "Signal Reversal" and cash is credited by
the close formula; when the subsequent open attempt returns without
opening (rejected for sizing or capital), the final state is exactly the
closed state — the rejection does not undo the close. -/
theorem C6_reversal_close_commits :
    (∀ (e : Enhanced.Engine) (fns : Enhanced.StratFns) (symbol : String)
      (bar : Enhanced.Bar) (t : Enhanced.Trade),
      e.positions.lookup symbol = some t → t.direction = -1 →
      Enhanced.openPosition
          (Enhanced.closePosition e symbol bar.date bar.closeP "Signal Reversal")
          fns symbol bar.date bar.closeP 1 bar.atr =
        Enhanced.closePosition e symbol bar.date bar.closeP "Signal Reversal" →
      Enhanced.processSignal e fns symbol bar 1 =
        Enhanced.closePosition e symbol bar.date bar.closeP "Signal Reversal" ∧
      (Enhanced.processSignal e fns symbol bar 1).closedTrades =
        e.closedTrades ++ [Enhanced.tradeClose t bar.date
          (bar.closeP * (1 - e.slippagePct * (t.direction : ℚ))) "Signal Reversal"] ∧
      (Enhanced.processSignal e fns symbol bar 1).cash =
        e.cash + t.entryPrice * (t.shares : ℚ) +
          (t.entryPrice - bar.closeP * (1 - e.slippagePct * (t.direction : ℚ))) *
            (t.shares : ℚ) -
          bar.closeP * (1 - e.slippagePct * (t.direction : ℚ)) * (t.shares : ℚ) *
            e.commissionPct ∧
      (Enhanced.processSignal e fns symbol bar 1).positions.lookup symbol = none) ∧
    (∀ (e : Enhanced.Engine) (fns : Enhanced.StratFns) (symbol : String)
      (bar : Enhanced.Bar) (t : Enhanced.Trade),
      e.positions.lookup symbol = some t → t.direction = 1 →
      Enhanced.openPosition
          (Enhanced.closePosition e symbol bar.date bar.closeP "Signal Reversal")
          fns symbol bar.date bar.closeP (-1) bar.atr =
        Enhanced.closePosition e symbol bar.date bar.closeP "Signal Reversal" →
      Enhanced.processSignal e fns symbol bar (-1) =
        Enhanced.closePosition e symbol bar.date bar.closeP "Signal Reversal" ∧
      (Enhanced.processSignal e fns symbol bar (-1)).closedTrades =
        e.closedTrades ++ [Enhanced.tradeClose t bar.date
          (bar.closeP * (1 - e.slippagePct * (t.direction : ℚ))) "Signal Reversal"] ∧
      (Enhanced.processSignal e fns symbol bar (-1)).cash =
        e.cash + (bar.closeP * (1 - e.slippagePct * (t.direction : ℚ)) * (t.shares : ℚ) -
          bar.closeP * (1 - e.slippagePct * (t.direction : ℚ)) * (t.shares : ℚ) *
            e.commissionPct) ∧
      (Enhanced.processSignal e fns symbol bar (-1)).positions.lookup symbol = none) := by
  constructor
  · intro e fns symbol bar t hpos hdir hrej
    obtain ⟨hct, hpo, hcash⟩ :=
      closePosition_fields e symbol bar.date bar.closeP "Signal Reversal" t hpos
    have hlk : (Enhanced.closePosition e symbol bar.date bar.closeP
        "Signal Reversal").positions.lookup symbol = none := by
      rw [hpo]
      exact lookup_filter_ne _ _
    have hps : Enhanced.processSignal e fns symbol bar 1 =
        Enhanced.closePosition e symbol bar.date bar.closeP "Signal Reversal" := by
      unfold Enhanced.processSignal
      rw [if_pos rfl, hpos]
      dsimp only
      rw [if_pos hdir]
      rw [if_pos (by rw [hlk]; rfl)]
      exact hrej
    refine ⟨hps, ?_, ?_, ?_⟩
    · rw [hps, hct]
    · rw [hps, hcash, if_neg (by rw [hdir]; decide)]
    · rw [hps, hlk]
  · intro e fns symbol bar t hpos hdir hrej
    obtain ⟨hct, hpo, hcash⟩ :=
      closePosition_fields e symbol bar.date bar.closeP "Signal Reversal" t hpos
    have hlk : (Enhanced.closePosition e symbol bar.date bar.closeP
        "Signal Reversal").positions.lookup symbol = none := by
      rw [hpo]
      exact lookup_filter_ne _ _
    have hps : Enhanced.processSignal e fns symbol bar (-1) =
        Enhanced.closePosition e symbol bar.date bar.closeP "Signal Reversal" := by
      unfold Enhanced.processSignal
      rw [if_neg (by decide), if_pos rfl, hpos]
      dsimp only
      rw [if_pos hdir]
      rw [if_pos (by rw [hlk]; rfl)]
      exact hrej
    refine ⟨hps, ?_, ?_, ?_⟩
    · rw [hps, hct]
    · rw [hps, hcash, if_pos hdir]
    · rw [hps, hlk]

/-- C6 witness: a LONG signal while the short `tradeShortW` is open, with
a sizing function that always returns zero shares, so the open attempt is
rejected; the close still commits. -/
theorem C6_reversal_close_commits_witness :
    Enhanced.processSignal engineShortW stratZero "A" barQuietW 1 =
      Enhanced.closePosition engineShortW "A" barQuietW.date barQuietW.closeP
        "Signal Reversal" ∧
    (Enhanced.processSignal engineShortW stratZero "A" barQuietW 1).closedTrades =
      engineShortW.closedTrades ++ [Enhanced.tradeClose tradeShortW barQuietW.date
        (barQuietW.closeP * (1 - engineShortW.slippagePct *
          (tradeShortW.direction : ℚ))) "Signal Reversal"] := by
  have h := C6_reversal_close_commits.1 engineShortW stratZero "A" barQuietW
    tradeShortW (lookup_cons_self "A" tradeShortW []) rfl
    (by
      unfold Enhanced.openPosition
      rw [if_pos (by norm_num [stratZero])])
  exact ⟨h.1, h.2.1⟩

/-! ### C9: the Sortino ratio of the portfolio engine -/

theorem engineC9_eval : engineC9 =
    { initialCapital := 1000, commissionPerTrade := 0, commissionPct := 0,
      slippagePct := 0, maxPositions := 10, maxPositionPct := 1,
      reserveCashPct := 0, cash := 1100, equity := 1100, positions := [],
      closedTrades := [⟨"A", 0, 4, 10, 12, 50, 100, 1 / 5, "Exit Signal", 4, 500, 600⟩],
      equityCurve := [(1, 1000, 500), (2, 1000, 500), (3, 1100, 500)],
      dailyReturns := [0, 1 / 10], peakEquity := 1100, maxDrawdown := 0 } := by
  unfold engineC9 Portfolio.runOps
  simp only [List.foldl_cons, List.foldl_nil, Portfolio.stepOp]
  norm_num [Portfolio.open_position, Portfolio.update_equity, Portfolio.close_position,
    Portfolio.mkEngine, Portfolio.can_open_position, Portfolio.get_available_capital,
    Portfolio.updatePosition, pyInt, List.lookup]

theorem castList_eval : Portfolio.castList [0, 1 / 10] = [(0 : ℝ), 1 / 10] := by
  simp [Portfolio.castList]

theorem npStd_eval : Portfolio.npStd [(0 : ℝ), 1 / 10] = 1 / 20 := by
  unfold Portfolio.npStd Portfolio.listMean
  norm_num
  rw [show (400 : ℝ) = 20 ^ 2 from by norm_num, Real.sqrt_sq (by norm_num)]
  norm_num

theorem sharpeOf_eval : Portfolio.sharpeOf [0, 1 / 10] = Real.sqrt 252 := by
  unfold Portfolio.sharpeOf
  rw [if_pos (by norm_num)]
  dsimp only
  rw [castList_eval, npStd_eval]
  rw [if_pos (by norm_num)]
  rw [show Portfolio.listMean [(0 : ℝ), 1 / 10] = 1 / 20 from by
    unfold Portfolio.listMean; norm_num]
  rw [mul_div_assoc, div_self (by norm_num), mul_one]

/-- C9 counterexample: the frictionless run `engineC9` has one closed
trade and daily returns `[0, 1/10]` — no negative days — yet the reported
metrics record carries Sortino = √252 ≠ 0: with no negative daily returns
the portfolio engine sets the Sortino ratio to the Sharpe ratio, not 0. -/
theorem C9_sortino_counterexample :
    engineC9.dailyReturns.filter (fun r => r < 0) = [] ∧
    Portfolio.get_performance_metrics engineC9 =
      Portfolio.PerfReturn.res ⟨Real.sqrt 252, Real.sqrt 252, 1, 0⟩ ∧
    Real.sqrt 252 ≠ 0 := by
  rw [engineC9_eval]
  refine ⟨by norm_num [List.filter], ?_, by positivity⟩
  unfold Portfolio.get_performance_metrics
  rw [if_neg (by simp), if_neg (by simp)]
  have hsortino : Portfolio.sortinoOf [0, 1 / 10] = Real.sqrt 252 := by
    unfold Portfolio.sortinoOf
    rw [if_pos (by norm_num)]
    dsimp only
    rw [show ([0, 1 / 10] : List ℚ).filter (fun r => r < 0) = [] from by
      norm_num [List.filter]]
    rw [show (([] : List ℚ)).isEmpty = true from rfl, if_pos rfl]
    exact sharpeOf_eval
  have hwin : Portfolio.winRateOf
      [⟨"A", 0, 4, 10, 12, 50, 100, 1 / 5, "Exit Signal", 4, 500, 600⟩] = 1 := by
    unfold Portfolio.winRateOf
    norm_num [List.filter]
  have hpf : Portfolio.profitFactorOf
      [⟨"A", 0, 4, 10, 12, 50, 100, 1 / 5, "Exit Signal", 4, 500, 600⟩] = 0 := by
    unfold Portfolio.profitFactorOf
    norm_num [List.filter]
  rw [hsortino, sharpeOf_eval, hwin, hpf]

/-- C9 amended: the Sortino ratio reported by the portfolio engine equals
`√252 * mean(all daily returns) / std(negative daily returns)` when
negative daily returns exist (0 when that deviation is not positive), and
it equals the Sharpe ratio — not 0 — when there are no negative daily
returns (with at most one daily return it is 0). -/
theorem C9_sortino_amended :
    (∀ dr : List ℚ, 1 < dr.length → dr.filter (fun r => r < 0) = [] →
      Portfolio.sortinoOf dr = Portfolio.sharpeOf dr) ∧
    (∀ dr : List ℚ, 1 < dr.length → dr.filter (fun r => r < 0) ≠ [] →
      Portfolio.sortinoOf dr =
        (if 0 < Portfolio.npStd (Portfolio.castList (dr.filter (fun r => r < 0))) then
          Real.sqrt 252 * Portfolio.listMean (Portfolio.castList dr) /
            Portfolio.npStd (Portfolio.castList (dr.filter (fun r => r < 0)))
        else 0)) := by
  constructor
  · intro dr h1 h2
    unfold Portfolio.sortinoOf
    rw [if_pos h1]
    dsimp only
    rw [h2]
    rfl
  · intro dr h1 h2
    unfold Portfolio.sortinoOf
    rw [if_pos h1]
    dsimp only
    rw [if_neg (by simp [List.isEmpty_iff, h2])]

/-- C9 witness: the amended no-negative-days case applied to the daily
returns of the run `engineC9`. -/
theorem C9_sortino_witness :
    Portfolio.sortinoOf [0, 1 / 10] = Portfolio.sharpeOf [0, 1 / 10] :=
  C9_sortino_amended.1 [0, 1 / 10] (by norm_num) (by norm_num [List.filter])
